import Mathlib

/-!
Verification development for the Archival-Flow repository.

The definitions below are shallow embeddings of the TypeScript source:

* `src/services/archiveService.ts` — `generateIdentifier`, `verifyCredentials`,
  `sanitizeHeaderValue`, `uploadToInternetArchive` (identifier generation,
  header sanitisation, the safe-filename derivation, the upload outcome and
  the credential probe).
* `src/unnamed/part_000` (the `App` component) — the verification-poll
  session (`checkStatus`, the one-second ticker, the skip button), the
  orchestrator state (`AppStep`, the `useState` fields), `handleReset`
  and `isAuthError`.

Strings are modelled as Lean `String`/`List Char`; JavaScript numbers that
only ever hold naturals are modelled as `Nat`; upload progress (a JS float
percentage) is modelled as `Rat`.  XHR / fetch / Promise callbacks are
modelled by making each function a pure function of the network event it
reacts to.
-/

/-! ## Character classes used by the JS regexes -/

/-- The characters matched by the JS regex `[0-9A-F]` with the `i` flag. -/
def isHexDig (c : Char) : Bool :=
  ('0' ≤ c && c ≤ '9') || ('a' ≤ c && c ≤ 'f') || ('A' ≤ c && c ≤ 'F')

/-- Numeric value of a hex digit. -/
def hexVal (c : Char) : Nat :=
  if '0' ≤ c && c ≤ '9' then c.toNat - 48
  else if 'a' ≤ c && c ≤ 'f' then c.toNat - 87
  else c.toNat - 55

/-- The characters matched by the JS regex `[\r\n]`. -/
def isCRLF (c : Char) : Bool := c == '\r' || c == '\n'

/-- The characters matched by the JS regex class `\s` (WhiteSpace and
LineTerminator code points; also the set removed by `String.prototype.trim`). -/
def isJsSpace (c : Char) : Bool :=
  c == ' ' || c == '\t' || c == '\n' || c == '\r'
    || c.toNat == 0x0B || c.toNat == 0x0C || c.toNat == 0xA0 || c.toNat == 0x1680
    || (0x2000 <= c.toNat && c.toNat <= 0x200A)
    || c.toNat == 0x2028 || c.toNat == 0x2029 || c.toNat == 0x202F
    || c.toNat == 0x205F || c.toNat == 0x3000 || c.toNat == 0xFEFF

/-! ## A UTF-8 decoder (the semantics behind `decodeURIComponent`)

`decodeURIComponent` turns the percent escapes into bytes and then decodes
those bytes as UTF-8, throwing `URIError` on an invalid byte sequence.  The
sanitizer only ever calls it on a single three-character match `%XX`, i.e. on
a one-byte sequence, so the decoder below is what decides whether such an
escape decodes (byte ≤ 0x7F) or throws (any lone byte ≥ 0x80 is an invalid
UTF-8 sequence). -/

/-- Number of bytes of the UTF-8 sequence introduced by lead byte `b`
(`0` for a byte that cannot start a sequence). -/
def utf8SeqLen (b : Nat) : Nat :=
  if b ≤ 0x7F then 1
  else if 0xC2 ≤ b ∧ b ≤ 0xDF then 2
  else if 0xE0 ≤ b ∧ b ≤ 0xEF then 3
  else if 0xF0 ≤ b ∧ b ≤ 0xF4 then 4
  else 0

/-- Valid range of the second byte, given the lead byte `b`. -/
def utf8Cont2Ok (b b2 : Nat) : Bool :=
  if b = 0xE0 then decide (0xA0 ≤ b2 ∧ b2 ≤ 0xBF)
  else if b = 0xED then decide (0x80 ≤ b2 ∧ b2 ≤ 0x9F)
  else if b = 0xF0 then decide (0x90 ≤ b2 ∧ b2 ≤ 0xBF)
  else if b = 0xF4 then decide (0x80 ≤ b2 ∧ b2 ≤ 0x8F)
  else decide (0x80 ≤ b2 ∧ b2 ≤ 0xBF)

/-- Valid range of a plain continuation byte. -/
def utf8ContOk (b2 : Nat) : Bool := decide (0x80 ≤ b2 ∧ b2 ≤ 0xBF)

/-- Decode a byte sequence as UTF-8 into code points; `none` on invalid input. -/
def utf8Decode : List Nat → Option (List Nat)
  | [] => some []
  | b :: bs =>
    match utf8SeqLen b, bs with
    | 1, rest => Option.map (fun cs => b :: cs) (utf8Decode rest)
    | 2, b2 :: rest =>
      if utf8Cont2Ok b b2 then
        Option.map (fun cs => ((b - 0xC0) * 64 + (b2 - 0x80)) :: cs)
          (utf8Decode rest)
      else none
    | 3, b2 :: b3 :: rest =>
      if utf8Cont2Ok b b2 && utf8ContOk b3 then
        Option.map
          (fun cs => ((b - 0xE0) * 4096 + (b2 - 0x80) * 64 + (b3 - 0x80)) :: cs)
          (utf8Decode rest)
      else none
    | 4, b2 :: b3 :: b4 :: rest =>
      if utf8Cont2Ok b b2 && utf8ContOk b3 && utf8ContOk b4 then
        Option.map
          (fun cs =>
            ((b - 0xF0) * 262144 + (b2 - 0x80) * 4096 + (b3 - 0x80) * 64
              + (b4 - 0x80)) :: cs)
          (utf8Decode rest)
      else none
    | _, _ => none

/-! ## `sanitizeHeaderValue` (src/services/archiveService.ts, lines 49–79) -/

/-- The replacement callback of the decode pass:
`(match) => { try { return decodeURIComponent(match); } catch { return match; } }`
applied to a single match `%h1h2`. -/
def decodeEscape (h1 h2 : Char) : List Char :=
  match utf8Decode [16 * hexVal h1 + hexVal h2] with
  | some cps => cps.map (fun n => Char.ofNat n)
  | none => ['%', h1, h2]

/-- One global pass of `clean.replace(/%[0-9A-F]{2}/gi, ...)`: scan left to
right, replace each `%XX` match, continue after the match. -/
def decodePass : List Char → List Char
  | '%' :: h1 :: h2 :: rest =>
    if isHexDig h1 && isHexDig h2 then decodeEscape h1 h2 ++ decodePass rest
    else '%' :: decodePass (h1 :: h2 :: rest)
  | c :: rest => c :: decodePass rest
  | [] => []

/-- The JS test `/%[0-9A-F]{2}/i.test(clean)`. -/
def containsEscape : List Char → Bool
  | '%' :: h1 :: h2 :: rest =>
    (isHexDig h1 && isHexDig h2) || containsEscape (h1 :: h2 :: rest)
  | _ :: rest => containsEscape rest
  | [] => false

/-- The bounded decode loop: run `decodePass` while the string still matches
`/%[0-9A-F]{2}/i` and fewer than five changing passes have happened, stopping
early once a pass produces no change. -/
def decodeLoop : Nat → List Char → List Char
  | 0, s => s
  | n + 1, s =>
    if containsEscape s then
      if decodePass s = s then s else decodeLoop n (decodePass s)
    else s

/-- Helper for run collapsing: `true` on the empty list and on any list whose
head fails `p`. -/
def headNotP (p : Char → Bool) : List Char → Bool
  | [] => true
  | c :: _ => !(p c)

/-- `collapseRunsAux p r b s` replaces every maximal run of `p`-characters in
`s` by the single character `r`; the flag `b` records whether the scan is
currently inside a run.  With `b = false` this is the JS global replace of
`p`-runs by `r` (used for `/[\r\n]+/g → ' '`, `/\s+/g → ' '` and
`/[^a-z0-9]+/g → '-'`). -/
def collapseRunsAux (p : Char → Bool) (r : Char) : Bool → List Char → List Char
  | _, [] => []
  | b, c :: t =>
    if p c then
      if b then collapseRunsAux p r true t else r :: collapseRunsAux p r true t
    else c :: collapseRunsAux p r false t

/-- Replace every maximal run of `p`-characters by the single character `r`. -/
def collapseRuns (p : Char → Bool) (r : Char) (s : List Char) : List Char :=
  collapseRunsAux p r false s

/-- Drop `q`-characters from both ends of a list (the shape of
`String.prototype.trim` and of `.replace(/^-+|-+$/g, '')`). -/
def trimEnds (q : Char → Bool) (s : List Char) : List Char :=
  (((s.dropWhile q).reverse).dropWhile q).reverse

/-- Step 2 of the sanitizer: `clean.replace(/[\r\n]+/g, ' ')`. -/
def stripNewlines (s : List Char) : List Char := collapseRuns isCRLF ' ' s

/-- Step 3 of the sanitizer: `clean.replace(/[^\x00-\xFF]/g, ' ')`. -/
def toLatin1 (s : List Char) : List Char :=
  s.map (fun c => if 0xFF < c.toNat then ' ' else c)

/-- First half of step 4: `clean.replace(/\s+/g, ' ')`. -/
def collapseSpaces (s : List Char) : List Char := collapseRuns isJsSpace ' ' s

/-- Second half of step 4: `.trim()`. -/
def jsTrim (s : List Char) : List Char := trimEnds isJsSpace s

/-- The body of `sanitizeHeaderValue` on the character list of a non-empty
input: bounded recursive decode, newline removal, Latin-1 restriction,
whitespace collapsing and trimming, in the source's order. -/
def sanitizeList (s : List Char) : List Char :=
  jsTrim (collapseSpaces (toLatin1 (stripNewlines (decodeLoop 5 s))))

/-- `sanitizeHeaderValue` (src/services/archiveService.ts):
`if (!val) return ''` followed by the four documented steps. -/
def sanitizeHeaderValue (val : String) : String :=
  if val = "" then "" else String.mk (sanitizeList val.data)

/-! ## Decimal rendering of a JS number (`${timestamp}`, `${xhr.status}`) -/

/-- The decimal digit character for `d < 10`. -/
def digitChar (d : Nat) : Char := Char.ofNat (48 + d)

/-- Decimal digits of `n`, most significant first; `fuel`-structured so that
the kernel can evaluate it (`fuel > n` always suffices). -/
def decDigitsAux : Nat → Nat → List Char
  | 0, _ => []
  | fuel + 1, n =>
    if n < 10 then [digitChar n]
    else decDigitsAux fuel (n / 10) ++ [digitChar (n % 10)]

/-- Decimal digits of `n`, most significant first. -/
def decDigits (n : Nat) : List Char := decDigitsAux (n + 1) n

/-- Decimal string of a natural, as JS template interpolation renders it. -/
def decRepr (n : Nat) : String := String.mk (decDigits n)

/-- Read a decimal digit string back into a number (used to show `decDigits`
is injective). -/
def ofDec (l : List Char) : Nat := l.foldl (fun a c => 10 * a + (c.toNat - 48)) 0

/-! ## `generateIdentifier` (src/services/archiveService.ts, lines 8–16) -/

/-- The characters NOT matched by the JS regex `[^a-z0-9]`. -/
def isLowerAlnum (c : Char) : Bool := ('a' ≤ c && c ≤ 'z') || ('0' ≤ c && c ≤ '9')

/-- The character class `[a-z0-9-]` of the specified identifier shape. -/
def isIdentChar (c : Char) : Bool := isLowerAlnum c || c == '-'

/-- `title.toLowerCase().replace(/[^a-z0-9]+/g, '-').replace(/^-+|-+$/g, '')`.
`toLowerCase` is modelled by ASCII `Char.toLower`; any character it leaves
outside `[a-z0-9]` is replaced by `-` just as in the source. -/
def cleanTitle (title : String) : List Char :=
  trimEnds (fun c => c == '-')
    (collapseRuns (fun c => !(isLowerAlnum c)) '-' (title.data.map Char.toLower))

/-- `generateIdentifier`: namespace prefix, cleaned title truncated to 50
characters (`substring(0, 50)`), and the millisecond timestamp, joined by
hyphens.  The clock is passed explicitly. -/
def generateIdentifier (title : String) (timestamp : Nat) : String :=
  "notebooklm-archive-" ++ String.mk ((cleanTitle title).take 50)
    ++ "-" ++ decRepr timestamp

/-! ## `uploadToInternetArchive` (src/services/archiveService.ts, 81–151) -/

/-- The characters kept by the JS regex `[^a-zA-Z0-9.-]` replacement. -/
def allowedFileChar (c : Char) : Bool :=
  ('a' ≤ c && c ≤ 'z') || ('A' ≤ c && c ≤ 'Z') || ('0' ≤ c && c ≤ '9')
    || c == '.' || c == '-'

/-- `file.name.replace(/[^a-zA-Z0-9.-]/g, '_')`. -/
def sanitizeFileChars (s : List Char) : List Char :=
  s.map (fun c => if allowedFileChar c then c else '_')

/-- `.replace(/\.[^.]+$/, '')`: remove the final dot followed by a non-empty
run of non-dot characters, when such a match exists (no trailing non-dot run,
or no dot at all, means no match). -/
def dropExtSeg (s : List Char) : List Char :=
  if (s.reverse.takeWhile (fun c => !(c == '.'))).length = 0 then s
  else if (s.reverse.takeWhile (fun c => !(c == '.'))).length = s.length then s
  else (s.reverse.drop ((s.reverse.takeWhile (fun c => !(c == '.'))).length + 1)).reverse

/-- `String.prototype.split('.')` specialised to the dot separator. -/
def splitOnDot : List Char → List (List Char)
  | [] => [[]]
  | c :: t =>
    if c == '.' then [] :: splitOnDot t
    else
      match splitOnDot t with
      | h :: rest => (c :: h) :: rest
      | [] => [[c]]

/-- `const ext = file.name.split('.').pop() || 'mp3'` (the empty string is
falsy in JS). -/
def extOf (name : String) : String :=
  if ((splitOnDot name.data).getLastD []).isEmpty then "mp3"
  else String.mk ((splitOnDot name.data).getLastD [])

/-- The derived object name of the upload: sanitised name with its final
extension-like segment stripped, then the raw original extension appended. -/
def safeFilename (name : String) : String :=
  String.mk (dropExtSeg (sanitizeFileChars name.data)) ++ "." ++ extOf name

/-- The message built by the upload `load` listener for a non-2xx status:
`` `Upload failed with status ${xhr.status}: ${xhr.responseText}` ``. -/
def mkUploadErrorMsg (status : Nat) (body : String) : String :=
  "Upload failed with status " ++ decRepr status ++ ": " ++ body

/-- The terminal network event of one upload attempt. -/
inductive UploadEvent where
  | load (status : Nat) (responseText : String)
  | netError
deriving DecidableEq

/-- How the upload promise settles for a given terminal event: the `load`
listener resolves with `https://archive.org/details/<identifier>` when
`200 <= status < 300` and rejects with the status/body message otherwise;
the `error` listener rejects with the fixed network-error message. -/
def uploadResult (identifier : String) : UploadEvent → Except String String
  | .load status body =>
    if 200 ≤ status ∧ status < 300 then
      .ok ("https://archive.org/details/" ++ identifier)
    else
      .error (mkUploadErrorMsg status body)
  | .netError => .error "Network error during upload"

/-! ## `verifyCredentials` (src/services/archiveService.ts, lines 21–43) -/

/-- The `ArchiveKeys` record of `types.ts`. -/
structure ArchiveKeys where
  accessKey : String
  secretKey : String
deriving DecidableEq

/-- The terminal network event of the credential probe. -/
inductive ProbeEvent where
  | load (status : Nat)
  | netError
deriving DecidableEq

/-- How the credential-probe promise settles: the executor can throw before
any request is made (rejecting the promise), or a network event resolves it
with a boolean. -/
inductive VerifyOutcome where
  | rejected
  | resolved (b : Bool)
deriving DecidableEq

/-- HTTP whitespace (fetch spec): stripped from both ends of a header value
by the `setRequestHeader` value normalization. -/
def isHttpWhitespace (c : Char) : Bool :=
  c == ' ' || c == '\t' || c == '\n' || c == '\r'

/-- Characters a normalized header value may not contain (NUL, LF, CR). -/
def isForbiddenValueChar (c : Char) : Bool :=
  c.toNat == 0x00 || c.toNat == 0x0A || c.toNat == 0x0D

/-- Whether `xhr.setRequestHeader(name, value)` throws for this value: the
WebIDL ByteString conversion throws `TypeError` on any code point above
U+00FF, and an invalid header value — one still containing NUL/CR/LF after
leading/trailing HTTP whitespace is stripped — throws `SyntaxError`. -/
def setRequestHeaderThrows (value : String) : Bool :=
  value.data.any (fun c => decide (0xFF < c.toNat))
    || (trimEnds isHttpWhitespace value.data).any isForbiddenValueChar

/-- The Authorization header value built by the probe:
`` `LOW ${keys.accessKey}:${keys.secretKey}` ``. -/
def authHeaderValue (keys : ArchiveKeys) : String :=
  "LOW " ++ keys.accessKey ++ ":" ++ keys.secretKey

/-- `verifyCredentials`: the `setRequestHeader` call at
archiveService.ts:25 sits unguarded inside the Promise executor, so a
credential pair that makes the header value illegal throws there and the
promise rejects (no request is sent); otherwise the request proceeds and
`onload`/`onerror` resolve with a boolean — `true` on status 200, `false`
on any other status and on a network error. -/
def verifyCredentials (keys : ArchiveKeys) : ProbeEvent → VerifyOutcome :=
  fun ev =>
    if setRequestHeaderThrows (authHeaderValue keys) then .rejected
    else
      match ev with
      | .load status => .resolved (status == 200)
      | .netError => .resolved false

/-! ## `isAuthError` (src/unnamed/part_000, lines 192–195) -/

/-- `needle.isPrefixOf hay || needle occurs later in hay`: the JS
`hay.includes(needle)`. -/
def occursIn (needle : List Char) : List Char → Bool
  | [] => needle.isPrefixOf []
  | c :: t => needle.isPrefixOf (c :: t) || occursIn needle t

/-- `String.prototype.includes`. -/
def strIncludes (hay needle : String) : Bool := occursIn needle.data hay.data

/-- `isAuthError(msg)`: `false` on a missing/empty message, otherwise a
substring check for `'403'`, `'InvalidAccessKeyId'` or
`'SignatureDoesNotMatch'` on the combined failure message. -/
def isAuthError : Option String → Bool
  | none => false
  | some m =>
    if m == "" then false
    else strIncludes m "403" || strIncludes m "InvalidAccessKeyId"
      || strIncludes m "SignatureDoesNotMatch"

/-! ## The verification poll (src/unnamed/part_000, lines 69–124, 471–475) -/

/-- One entry of the `files` array of the metadata endpoint's JSON. -/
structure IAFileEntry where
  format : String
deriving DecidableEq

/-- The `metadata` object of the metadata endpoint's JSON. -/
structure IAItemMetadata where
  identifier : String
deriving DecidableEq

/-- The JSON body of one poll response (`data`), with both fields optional as
the guards in `checkStatus` expect. -/
structure IAMetadataBody where
  metadata : Option IAItemMetadata
  files : Option (List IAFileEntry)
deriving DecidableEq

/-- The outcome of one `fetch` of the metadata endpoint: a network error, or
a response with its `ok` flag (status in 200–299) and parsed body. -/
inductive PollResponse where
  | netError
  | httpRes (ok : Bool) (body : Option IAMetadataBody)
deriving DecidableEq

/-- One `checkStatus` call signals completion exactly when the guards of the
source all pass: `response.ok`, `data && data.metadata` with matching
`identifier`, and `data.files` containing an entry with `format === 'PNG'`.
A thrown fetch error is caught (`netError` never signals). -/
def checkCompletes (r : PollResponse) (identifier : String) : Bool :=
  match r with
  | .netError => false
  | .httpRes ok body =>
    ok &&
      match body with
      | none => false
      | some data =>
        (match data.metadata with
         | some md => md.identifier == identifier
         | none => false)
          &&
        (match data.files with
         | some fs => fs.any (fun f => f.format == "PNG")
         | none => false)

/-- The state owned by one verification polling session: the `isVerifying`
and `elapsedTime` React state plus whether the two `setInterval` handles
(`pollInterval`, `timerInterval`) are still live. -/
structure VerifySession where
  isVerifying : Bool
  elapsed : Nat
  pollActive : Bool
  timerActive : Bool
  identifier : String
deriving DecidableEq

/-- Session created when the effect runs on entering the success step:
`setIsVerifying(true); setElapsedTime(0);` and both intervals started. -/
def startSession (identifier : String) : VerifySession :=
  { isVerifying := true, elapsed := 0, pollActive := true, timerActive := true,
    identifier := identifier }

/-- One firing of `timerInterval`: `setElapsedTime(prev => prev + 1)` while
the interval is live; a cleared interval never fires. -/
def tick (s : VerifySession) : VerifySession :=
  if s.timerActive then { s with elapsed := s.elapsed + 1 } else s

/-- One firing of `pollInterval` with response `r`: on a completing check it
runs `setIsVerifying(false); clearInterval(pollInterval);
clearInterval(timerInterval)`, otherwise the failure is swallowed and the
session is unchanged; a cleared interval never fires. -/
def pollCheck (r : PollResponse) (s : VerifySession) : VerifySession :=
  if s.pollActive then
    if checkCompletes r s.identifier then
      { s with isVerifying := false, pollActive := false, timerActive := false }
    else s
  else s

/-- The skip button (`onClick={() => setIsVerifying(false)}`): it only writes
the `isVerifying` flag; the effect's cleanup does not run because neither
`step` nor `successUrl` changes. -/
def skipVerification (s : VerifySession) : VerifySession :=
  { s with isVerifying := false }

/-- The effect cleanup (step/successUrl change or unmount): both intervals
are cleared. -/
def cleanupSession (s : VerifySession) : VerifySession :=
  { s with pollActive := false, timerActive := false }

/-! ## The orchestrator state (src/unnamed/part_000, `App`) -/

/-- The `AppStep` enum of `types.ts`. -/
inductive AppStep where
  | UPLOAD
  | REVIEW
  | UPLOADING
  | SUCCESS
  | ERROR
deriving DecidableEq

/-- The `ArchiveMetadata` record of `types.ts` (the optional `subject` field
is never populated by the app and is omitted). -/
structure ArchiveMetadata where
  title : String
  description : String
  tags : List String
  creator : String
deriving DecidableEq

/-- The orchestrator-relevant `useState` fields of the `App` component,
together with the liveness of the two verification intervals. -/
structure AppState where
  step : AppStep
  file : Option String
  userContext : String
  metadata : ArchiveMetadata
  uploadProgress : Rat
  successUrl : Option String
  errorMsg : Option String
  isVerifying : Bool
  elapsedTime : Nat
  pollActive : Bool
  timerActive : Bool

/-- The initial values of the `useState` hooks. -/
def initialAppState : AppState :=
  { step := .UPLOAD, file := none, userContext := "",
    metadata := { title := "", description := "", tags := [],
                  creator := "NotebookLM" },
    uploadProgress := 0, successUrl := none, errorMsg := none,
    isVerifying := false, elapsedTime := 0,
    pollActive := false, timerActive := false }

/-- `handleReset` (src/unnamed/part_000, lines 180–189), together with the
poll effect's cleanup that the step change triggers: every listed setter is
applied; `metadata` has no setter call in `handleReset`. -/
def handleReset (s : AppState) : AppState :=
  { s with
    file := none, userContext := "", step := .UPLOAD,
    successUrl := none, errorMsg := none, uploadProgress := 0,
    isVerifying := false, elapsedTime := 0,
    pollActive := false, timerActive := false }

/-- Invariant of collapsed output: every `p`-character equals `r` and is
immediately followed by a non-`p` character (i.e. `p`-runs have length 1). -/
def singledRuns (p : Char → Bool) (r : Char) : List Char → Bool
  | [] => true
  | c :: t => (!(p c) || ((c == r) && headNotP p t)) && singledRuns p r t

/-! ## Helper lemmas -/

theorem decodeLoop_id_of_fix (n : Nat) (s : List Char)
    (h : decodePass s = s) : decodeLoop n s = s := by
  cases n with
  | zero => rfl
  | succ m => simp [decodeLoop, h]

theorem mem_collapseRunsAux (p : Char → Bool) (r : Char) :
    ∀ (s : List Char) (b : Bool) (c : Char), c ∈ collapseRunsAux p r b s →
      c = r ∨ (c ∈ s ∧ p c = false) := by
  intro s
  induction s with
  | nil => intro b c h; simp [collapseRunsAux] at h
  | cons d t ih =>
    intro b c h
    by_cases hp : p d = true
    · cases b with
      | true =>
        simp only [collapseRunsAux, hp, if_true] at h
        rcases ih true c h with h1 | ⟨h2, h3⟩
        · exact Or.inl h1
        · exact Or.inr ⟨List.mem_cons_of_mem d h2, h3⟩
      | false =>
        simp only [collapseRunsAux, hp, if_true] at h
        rcases List.mem_cons.mp h with h1 | h1
        · exact Or.inl h1
        · rcases ih true c h1 with h2 | ⟨h3, h4⟩
          · exact Or.inl h2
          · exact Or.inr ⟨List.mem_cons_of_mem d h3, h4⟩
    · have hp' : p d = false := by simpa using hp
      simp only [collapseRunsAux, hp', if_false, Bool.false_eq_true] at h
      rcases List.mem_cons.mp h with h1 | h1
      · subst h1; exact Or.inr ⟨List.mem_cons_self c t, hp'⟩
      · rcases ih false c h1 with h2 | ⟨h3, h4⟩
        · exact Or.inl h2
        · exact Or.inr ⟨List.mem_cons_of_mem d h3, h4⟩

theorem collapseRunsAux_id_of_not (p : Char → Bool) (r : Char) :
    ∀ (s : List Char), (∀ c ∈ s, p c = false) →
      collapseRunsAux p r false s = s := by
  intro s
  induction s with
  | nil => intro _; rfl
  | cons d t ih =>
    intro h
    have hd : p d = false := h d (List.mem_cons_self d t)
    simp only [collapseRunsAux, hd, if_false, Bool.false_eq_true]
    exact congrArg (d :: ·) (ih fun c hc => h c (List.mem_cons_of_mem d hc))

theorem singledRuns_collapseRunsAux (p : Char → Bool) (r : Char) :
    ∀ (s : List Char),
      singledRuns p r (collapseRunsAux p r false s) = true
      ∧ singledRuns p r (collapseRunsAux p r true s) = true
      ∧ headNotP p (collapseRunsAux p r true s) = true := by
  intro s
  induction s with
  | nil => exact ⟨rfl, rfl, rfl⟩
  | cons d t ih =>
    obtain ⟨ihf, iht, ihh⟩ := ih
    by_cases hp : p d = true
    · refine ⟨?_, ?_, ?_⟩
      · simp only [collapseRunsAux, hp, if_true]
        simp only [singledRuns, iht, Bool.and_true]
        simp [ihh]
      · simpa [collapseRunsAux, hp] using iht
      · simpa [collapseRunsAux, hp] using ihh
    · have hp' : p d = false := by simpa using hp
      refine ⟨?_, ?_, ?_⟩
      · simp only [collapseRunsAux, hp', if_false, Bool.false_eq_true]
        simp [singledRuns, hp', ihf]
      · simp only [collapseRunsAux, hp', if_false, Bool.false_eq_true]
        simp [singledRuns, hp', ihf]
      · simp only [collapseRunsAux, hp', if_false, Bool.false_eq_true]
        simp [headNotP, hp']

theorem collapseRunsAux_id_of_singled (p : Char → Bool) (r : Char) :
    ∀ (s : List Char), singledRuns p r s = true →
      collapseRunsAux p r false s = s := by
  intro s
  induction s with
  | nil => intro _; rfl
  | cons d t ih =>
    intro h
    simp only [singledRuns, Bool.and_eq_true] at h
    obtain ⟨h1, h2⟩ := h
    by_cases hp : p d = true
    · have h3 : (d == r) = true ∧ headNotP p t = true := by
        rcases Bool.or_eq_true _ _ |>.mp h1 with hw | hw
        · simp [hp] at hw
        · exact Bool.and_eq_true _ _ |>.mp hw
      have hdr : d = r := by simpa using h3.1
      simp only [collapseRunsAux, hp, if_true]
      cases t with
      | nil => simp [collapseRunsAux, hdr]
      | cons e u =>
        have he : p e = false := by simpa [headNotP] using h3.2
        have ht := ih h2
        simp only [collapseRunsAux, he, if_false, Bool.false_eq_true] at ht ⊢
        have hu : collapseRunsAux p r false u = u := List.cons.inj ht |>.2
        simp [collapseRunsAux, hu, hdr]
    · have hp' : p d = false := by simpa using hp
      simp only [collapseRunsAux, hp', if_false, Bool.false_eq_true]
      exact congrArg (d :: ·) (ih h2)

theorem singledRuns_append_right (p : Char → Bool) (r : Char) :
    ∀ (l m : List Char), singledRuns p r (l ++ m) = true →
      singledRuns p r m = true := by
  intro l
  induction l with
  | nil => intro m h; simpa using h
  | cons d t ih =>
    intro m h
    simp only [List.cons_append, singledRuns, Bool.and_eq_true] at h
    exact ih m h.2

theorem singledRuns_append_left (p : Char → Bool) (r : Char) :
    ∀ (l m : List Char), singledRuns p r (l ++ m) = true →
      singledRuns p r l = true := by
  intro l
  induction l with
  | nil => intro _ _; rfl
  | cons d t ih =>
    intro m h
    simp only [List.cons_append, singledRuns, Bool.and_eq_true] at h
    obtain ⟨h1, h2⟩ := h
    simp only [singledRuns, Bool.and_eq_true]
    refine ⟨?_, ih m h2⟩
    rcases Bool.or_eq_true _ _ |>.mp h1 with hw | hw
    · simp [hw]
    · have h3 := Bool.and_eq_true _ _ |>.mp hw
      have h4 : headNotP p t = true := by
        cases t with
        | nil => rfl
        | cons e u => simpa [headNotP] using h3.2
      simp [h3.1, h4]

theorem headNotP_dropWhile (q : Char → Bool) :
    ∀ (l : List Char), headNotP q (l.dropWhile q) = true := by
  intro l
  induction l with
  | nil => rfl
  | cons d t ih =>
    by_cases hq : q d = true
    · simpa [List.dropWhile_cons, hq] using ih
    · have hq' : q d = false := by simpa using hq
      simp [List.dropWhile_cons, hq', headNotP]

theorem dropWhile_id_of_headNotP (q : Char → Bool) (l : List Char)
    (h : headNotP q l = true) : l.dropWhile q = l := by
  cases l with
  | nil => rfl
  | cons d t =>
    have hq : q d = false := by simpa [headNotP] using h
    simp [List.dropWhile_cons, hq]

theorem takeWhile_dropWhile_decomp (q : Char → Bool) (l : List Char) :
    l = l.takeWhile q ++ l.dropWhile q :=
  (List.takeWhile_append_dropWhile q l).symm

theorem trimEnds_decomp (q : Char → Bool) (l : List Char) :
    l.dropWhile q
      = trimEnds q l ++ ((l.dropWhile q).reverse.takeWhile q).reverse := by
  unfold trimEnds
  have h := takeWhile_dropWhile_decomp q (l.dropWhile q).reverse
  conv_lhs => rw [← List.reverse_reverse (l.dropWhile q), h]
  rw [List.reverse_append]

theorem trimEnds_headNotP (q : Char → Bool) (s : List Char) :
    headNotP q (trimEnds q s) = true := by
  have hd := headNotP_dropWhile q s
  have hdec := trimEnds_decomp q s
  cases hte : trimEnds q s with
  | nil => rfl
  | cons c u =>
    rw [hdec, hte] at hd
    simpa [headNotP] using hd

theorem trimEnds_reverse_headNotP (q : Char → Bool) (s : List Char) :
    headNotP q (trimEnds q s).reverse = true := by
  unfold trimEnds
  rw [List.reverse_reverse]
  exact headNotP_dropWhile q (s.dropWhile q).reverse

theorem trimEnds_idem (q : Char → Bool) (s : List Char) :
    trimEnds q (trimEnds q s) = trimEnds q s := by
  have h1 : (trimEnds q s).dropWhile q = trimEnds q s :=
    dropWhile_id_of_headNotP q _ (trimEnds_headNotP q s)
  have h2 : (trimEnds q s).reverse.dropWhile q = (trimEnds q s).reverse :=
    dropWhile_id_of_headNotP q _ (trimEnds_reverse_headNotP q s)
  show (((trimEnds q s).dropWhile q).reverse.dropWhile q).reverse = trimEnds q s
  rw [h1, h2, List.reverse_reverse]

theorem singledRuns_trimEnds (p : Char → Bool) (r : Char) (q : Char → Bool)
    (s : List Char) (h : singledRuns p r s = true) :
    singledRuns p r (trimEnds q s) = true := by
  have h1 : singledRuns p r (s.dropWhile q) = true := by
    have hdec := takeWhile_dropWhile_decomp q s
    exact singledRuns_append_right p r (s.takeWhile q) (s.dropWhile q) (hdec ▸ h)
  have hdec2 := trimEnds_decomp q s
  exact singledRuns_append_left p r (trimEnds q s) _ (hdec2 ▸ h1)

theorem collapseRuns_trimEnds_collapseRuns (p : Char → Bool) (r : Char)
    (u : List Char) :
    collapseRuns p r (trimEnds p (collapseRuns p r u))
      = trimEnds p (collapseRuns p r u) := by
  apply collapseRunsAux_id_of_singled
  exact singledRuns_trimEnds p r p _ (singledRuns_collapseRunsAux p r u).1

theorem mem_of_mem_dropWhile (q : Char → Bool) (l : List Char) (c : Char)
    (h : c ∈ l.dropWhile q) : c ∈ l := by
  have hdec := takeWhile_dropWhile_decomp q l
  rw [hdec]
  exact List.mem_append_right _ h

theorem mem_trimEnds (q : Char → Bool) (s : List Char) (c : Char)
    (h : c ∈ trimEnds q s) : c ∈ s := by
  unfold trimEnds at h
  rw [List.mem_reverse] at h
  have h2 := mem_of_mem_dropWhile q _ c h
  rw [List.mem_reverse] at h2
  exact mem_of_mem_dropWhile q s c h2

theorem map_id_of_mem (f : Char → Char) (l : List Char)
    (h : ∀ c ∈ l, f c = c) : l.map f = l := by
  induction l with
  | nil => rfl
  | cons d t ih =>
    simp only [List.map_cons]
    rw [h d (List.mem_cons_self d t), ih fun c hc => h c (List.mem_cons_of_mem d hc)]

theorem sanitizeList_mem (s : List Char) (c : Char) (h : c ∈ sanitizeList s) :
    c = ' ' ∨ (isJsSpace c = false ∧ c.toNat ≤ 0xFF) := by
  unfold sanitizeList jsTrim at h
  have h1 := mem_trimEnds isJsSpace _ c h
  rcases mem_collapseRunsAux isJsSpace ' ' _ false c h1 with h2 | ⟨h2, h3⟩
  · exact Or.inl h2
  · unfold toLatin1 at h2
    rcases List.mem_map.mp h2 with ⟨a, _, ha⟩
    by_cases hfa : 0xFF < a.toNat
    · rw [if_pos hfa] at ha
      exact Or.inl ha.symm
    · rw [if_neg hfa] at ha
      subst ha
      exact Or.inr ⟨h3, by omega⟩

theorem isJsSpace_of_isCRLF (c : Char) (h : isCRLF c = true) :
    isJsSpace c = true := by
  unfold isCRLF at h
  rcases Bool.or_eq_true _ _ |>.mp h with h1 | h1
  · have : c = '\r' := by simpa using h1
    subst this; decide
  · have : c = '\n' := by simpa using h1
    subst this; decide

theorem sanitizeList_fixpoint (s : List Char)
    (h : decodePass (sanitizeList s) = sanitizeList s) :
    sanitizeList (sanitizeList s) = sanitizeList s := by
  have hloop : decodeLoop 5 (sanitizeList s) = sanitizeList s :=
    decodeLoop_id_of_fix 5 _ h
  have hnl : stripNewlines (sanitizeList s) = sanitizeList s := by
    apply collapseRunsAux_id_of_not
    intro c hc
    rcases sanitizeList_mem s c hc with h1 | ⟨h1, _⟩
    · subst h1; decide
    · by_contra hcr
      have : isCRLF c = true := by
        cases hx : isCRLF c with
        | true => rfl
        | false => exact absurd hx hcr
      rw [isJsSpace_of_isCRLF c this] at h1
      exact Bool.true_eq_false.mp h1
  have hlat : toLatin1 (sanitizeList s) = sanitizeList s := by
    apply map_id_of_mem
    intro c hc
    rcases sanitizeList_mem s c hc with h1 | ⟨_, h1⟩
    · subst h1; decide
    · rw [if_neg (by omega)]
  have hcoll : collapseSpaces (sanitizeList s) = sanitizeList s := by
    show collapseRuns isJsSpace ' ' (sanitizeList s) = sanitizeList s
    unfold sanitizeList jsTrim
    exact collapseRuns_trimEnds_collapseRuns isJsSpace ' ' _
  have htrim : jsTrim (sanitizeList s) = sanitizeList s := by
    show trimEnds isJsSpace (sanitizeList s) = sanitizeList s
    unfold sanitizeList jsTrim
    exact trimEnds_idem isJsSpace _
  show jsTrim (collapseSpaces (toLatin1 (stripNewlines (decodeLoop 5 (sanitizeList s)))))
      = sanitizeList s
  rw [hloop, hnl, hlat, hcoll, htrim]

/-! ## Claim theorems -/

/-- C3 counterexample: the claimed unconditional idempotence fails for an
input whose percent-encoding is nested seven layers deep — five passes leave
`"%2541"`, which a second application of the sanitizer decodes further to
`"A"`. -/
theorem sanitize_not_idempotent_deep_nesting :
    sanitizeHeaderValue (sanitizeHeaderValue "%25252525252541")
      ≠ sanitizeHeaderValue "%25252525252541"
    ∧ sanitizeHeaderValue "%25252525252541" = "%2541"
    ∧ sanitizeHeaderValue (sanitizeHeaderValue "%25252525252541") = "A" := by
  decide

/-- C3 (amended): the sanitizer is idempotent on every input whose sanitized
output is a fixpoint of the percent-decode pass — in particular on every
input whose nesting depth the five decode passes fully resolve.  (The
counterexample shows the restriction is necessary: inputs percent-encoded
more deeply than the 5-pass bound escape it.) -/
theorem sanitize_idempotent_of_decode_fixpoint (x : String)
    (h : decodePass (sanitizeHeaderValue x).data = (sanitizeHeaderValue x).data) :
    sanitizeHeaderValue (sanitizeHeaderValue x) = sanitizeHeaderValue x := by
  by_cases hx : x = ""
  · subst hx; rfl
  · have hy : sanitizeHeaderValue x = String.mk (sanitizeList x.data) := by
      unfold sanitizeHeaderValue
      rw [if_neg hx]
    rw [hy] at h ⊢
    by_cases hy0 : String.mk (sanitizeList x.data) = ""
    · rw [hy0]; rfl
    · unfold sanitizeHeaderValue
      rw [if_neg hy0]
      exact congrArg String.mk (sanitizeList_fixpoint x.data h)

/-- C3 witness: `"a%2520b"` sanitizes to `"a b"`, a decode fixpoint, and the
theorem applies to it. -/
theorem sanitize_idempotent_witness :
    decodePass (sanitizeHeaderValue "a%2520b").data
        = (sanitizeHeaderValue "a%2520b").data
    ∧ sanitizeHeaderValue (sanitizeHeaderValue "a%2520b")
        = sanitizeHeaderValue "a%2520b" :=
  ⟨by decide, sanitize_idempotent_of_decode_fixpoint "a%2520b" (by decide)⟩

/-- C1 counterexample: in a freshly started polling session, the manual skip
(`setIsVerifying(false)`) does not stop the intervals — the next one-second
tick still increments the elapsed counter (an observable state mutation) and
the poll interval is still live. -/
theorem skip_does_not_stop_ticker_counterexample :
    tick (skipVerification (startSession "item-1"))
        ≠ skipVerification (startSession "item-1")
    ∧ (skipVerification (startSession "item-1")).pollActive = true
    ∧ (tick (skipVerification (startSession "item-1"))).elapsed = 1 := by
  decide

/-- C1 (amended): the manual skip only clears the `isVerifying` flag; both
intervals stay live (neither `step` nor `successUrl` changes, so the effect
cleanup does not run), and a subsequent tick still increments the elapsed
time.  Only the effect cleanup — reset, step change or unmount — or a
successful check stops the ticker and the poller. -/
theorem skipVerification_only_clears_isVerifying (s : VerifySession) :
    skipVerification s = { s with isVerifying := false }
    ∧ (skipVerification s).timerActive = s.timerActive
    ∧ (skipVerification s).pollActive = s.pollActive
    ∧ (s.timerActive = true →
        tick (skipVerification s)
          = { s with isVerifying := false, elapsed := s.elapsed + 1 })
    ∧ tick (cleanupSession s) = cleanupSession s
    ∧ (∀ r, pollCheck r (cleanupSession s) = cleanupSession s) := by
  refine ⟨rfl, rfl, rfl, ?_, ?_, ?_⟩
  · intro h
    simp [tick, skipVerification, h]
  · simp [tick, cleanupSession]
  · intro r
    simp [pollCheck, cleanupSession]

/-- C1 witness: the amended theorem applied to a freshly started session. -/
theorem skipVerification_only_clears_isVerifying_witness :
    tick (skipVerification (startSession "pod"))
      = { startSession "pod" with isVerifying := false, elapsed := 1 } :=
  (skipVerification_only_clears_isVerifying (startSession "pod")).2.2.2.1 rfl

/-- C2 counterexample: `handleReset` returns the step machine to the initial
step but does not restore the metadata to its initial value — the generated
title survives the reset. -/
theorem handleReset_keeps_metadata_counterexample :
    (handleReset { initialAppState with
        step := .SUCCESS,
        metadata := { title := "My Podcast", description := "d",
                      tags := ["t"], creator := "NotebookLM" },
        successUrl := some "https://archive.org/details/x",
        isVerifying := true, elapsedTime := 30,
        pollActive := true, timerActive := true }).step = .UPLOAD
    ∧ (handleReset { initialAppState with
        step := .SUCCESS,
        metadata := { title := "My Podcast", description := "d",
                      tags := ["t"], creator := "NotebookLM" },
        successUrl := some "https://archive.org/details/x",
        isVerifying := true, elapsedTime := 30,
        pollActive := true, timerActive := true }).metadata
      ≠ initialAppState.metadata := by
  constructor
  · rfl
  · intro h
    have := congrArg ArchiveMetadata.title h
    simp [handleReset, initialAppState] at this

/-- C2 (amended): reset returns every orchestrator field — step, file,
context, progress, success URL, error message, verification flag, elapsed
time, and both interval handles — to its initial value, but retains the
current metadata (it is only replaced when a new file is selected and
generation completes). -/
theorem handleReset_restores_initial_except_metadata (s : AppState) :
    handleReset s = { initialAppState with metadata := s.metadata } := rfl

/-- C4: one poll check signals completion exactly when the response is
successful, the returned metadata's own identifier matches the requested
one, and the file listing has an entry of format `"PNG"`; a non-completing
check (including network errors and non-success statuses) leaves the polling
session unchanged. -/
theorem checkStatus_completes_iff (r : PollResponse) (id : String) :
    (checkCompletes r id = true ↔
      ∃ md fs, r = .httpRes true (some { metadata := some md, files := some fs })
        ∧ md.identifier = id ∧ ∃ f ∈ fs, f.format = "PNG")
    ∧ (checkCompletes r id = false → ∀ s : VerifySession, s.identifier = id →
        pollCheck r s = s) := by
  constructor
  · cases r with
    | netError => simp [checkCompletes]
    | httpRes ok body =>
      cases ok with
      | false => simp [checkCompletes]
      | true =>
        cases body with
        | none => simp [checkCompletes]
        | some data =>
          obtain ⟨mdo, fso⟩ := data
          cases mdo with
          | none => simp [checkCompletes]
          | some md =>
            cases fso with
            | none => simp [checkCompletes]
            | some fs =>
              simp only [checkCompletes, Bool.true_and, Bool.and_eq_true,
                beq_iff_eq, List.any_eq_true]
              constructor
              · rintro ⟨hid, f, hf, hfmt⟩
                exact ⟨md, fs, rfl, hid, f, hf, hfmt⟩
              · rintro ⟨md2, fs2, heq, hid, f, hf, hfmt⟩
                cases heq
                exact ⟨hid, f, hf, hfmt⟩
  · intro h s hs
    unfold pollCheck
    rw [hs, h]
    simp

/-- C4 witness: a network-error check is swallowed — the session is
unchanged. -/
theorem checkStatus_completes_iff_witness :
    pollCheck .netError (startSession "x") = startSession "x" :=
  (checkStatus_completes_iff .netError "x").2 rfl (startSession "x") rfl

/-- C9 counterexample: a credential pair whose access key contains an
interior newline makes the Authorization header value illegal, so the
unguarded `setRequestHeader` throws inside the executor and the probe
promise rejects instead of resolving — whatever the network would have
answered, even a 200. -/
theorem verifyCredentials_rejects_counterexample :
    verifyCredentials { accessKey := "AK\nX", secretKey := "SK" } (.load 200)
        = .rejected
    ∧ verifyCredentials { accessKey := "AK\nX", secretKey := "SK" } .netError
        = .rejected
    ∧ (∀ b : Bool,
        verifyCredentials { accessKey := "AK\nX", secretKey := "SK" } (.load 200)
          ≠ .resolved b) := by
  decide

/-- C9 (amended): for every credential pair whose Authorization header value
`LOW <access>:<secret>` is legally transmissible (no code point above U+00FF
and no NUL/CR/LF left after whitespace normalization), the probe always
resolves with a boolean and never rejects — `true` exactly on HTTP status
200, `false` on every other status and on a network error.  For a credential
pair that makes the header value illegal, the unguarded `setRequestHeader`
throws inside the executor and the promise rejects. -/
theorem verifyCredentials_resolves_iff_200 (keys : ArchiveKeys)
    (ev : ProbeEvent) :
    (setRequestHeaderThrows (authHeaderValue keys) = false →
      (∃ b : Bool, verifyCredentials keys ev = .resolved b)
      ∧ (verifyCredentials keys ev = .resolved true ↔ ev = .load 200)
      ∧ verifyCredentials keys .netError = .resolved false)
    ∧ (setRequestHeaderThrows (authHeaderValue keys) = true →
      verifyCredentials keys ev = .rejected) := by
  constructor
  · intro h
    refine ⟨?_, ?_, ?_⟩
    · cases ev with
      | load status => exact ⟨status == 200, by simp [verifyCredentials, h]⟩
      | netError => exact ⟨false, by simp [verifyCredentials, h]⟩
    · cases ev with
      | load status => simp [verifyCredentials, h]
      | netError => simp [verifyCredentials, h]
    · simp [verifyCredentials, h]
  · intro h
    simp [verifyCredentials, h]

/-- C9 witness: legal credentials resolve with `true` on a 200 probe, and a
secret key containing a code point above U+00FF makes the probe reject. -/
theorem verifyCredentials_resolves_iff_200_witness :
    verifyCredentials { accessKey := "AK", secretKey := "SK" } (.load 200)
        = .resolved true
    ∧ verifyCredentials
        { accessKey := "AK", secretKey := String.mk [Char.ofNat 0x2603] }
        (.load 200) = .rejected := by
  constructor
  · exact ((verifyCredentials_resolves_iff_200
      { accessKey := "AK", secretKey := "SK" } (.load 200)).1 (by decide)).2.1.mpr rfl
  · exact (verifyCredentials_resolves_iff_200
      { accessKey := "AK", secretKey := String.mk [Char.ofNat 0x2603] }
      (.load 200)).2 (by decide)

/-! ## Decimal-digit lemmas -/

theorem digitChar_toNat (d : Nat) (hd : d < 10) : (digitChar d).toNat = 48 + d := by
  interval_cases d <;> decide

theorem decDigitsAux_mem (f : Nat) :
    ∀ (n : Nat) (c : Char), c ∈ decDigitsAux f n →
      ∃ d, d < 10 ∧ c = digitChar d := by
  induction f with
  | zero => intro n c h; simp [decDigitsAux] at h
  | succ g ih =>
    intro n c h
    by_cases hn : n < 10
    · simp only [decDigitsAux, if_pos hn, List.mem_singleton] at h
      exact ⟨n, hn, h⟩
    · simp only [decDigitsAux, if_neg hn] at h
      rcases List.mem_append.mp h with h1 | h1
      · exact ih (n / 10) c h1
      · have h2 : c = digitChar (n % 10) := by simpa using h1
        exact ⟨n % 10, Nat.mod_lt n (by omega), h2⟩

theorem decDigitsAux_foldl (f : Nat) :
    ∀ (n a : Nat), n < f →
      List.foldl (fun acc c => 10 * acc + (c.toNat - 48)) a (decDigitsAux f n)
        = a * 10 ^ (decDigitsAux f n).length + n := by
  induction f with
  | zero => intro n a h; exact absurd h (Nat.not_lt_zero n)
  | succ g ih =>
    intro n a h
    by_cases hn : n < 10
    · simp only [decDigitsAux, if_pos hn, List.foldl_cons, List.foldl_nil,
        List.length_singleton, pow_one]
      rw [digitChar_toNat n hn]
      omega
    · simp only [decDigitsAux, if_neg hn]
      rw [List.foldl_append]
      have hlt : n / 10 < g := by omega
      rw [ih (n / 10) a hlt]
      simp only [List.foldl_cons, List.foldl_nil, List.length_append,
        List.length_singleton]
      rw [digitChar_toNat (n % 10) (Nat.mod_lt n (by omega)), pow_succ]
      have hmod := Nat.div_add_mod n 10
      have h48 : 48 + n % 10 - 48 = n % 10 := by omega
      rw [h48]
      ring_nf
      omega

theorem decDigits_inj (m n : Nat) (h : decDigits m = decDigits n) : m = n := by
  have hm := decDigitsAux_foldl (m + 1) m 0 (Nat.lt_succ_self m)
  have hn := decDigitsAux_foldl (n + 1) n 0 (Nat.lt_succ_self n)
  unfold decDigits at h
  rw [h] at hm
  simp only [Nat.zero_mul, Nat.zero_add] at hm hn
  omega

theorem isIdentChar_digitChar (d : Nat) (hd : d < 10) :
    isIdentChar (digitChar d) = true := by
  interval_cases d <;> decide

theorem mem_cleanTitle (title : String) (c : Char) (h : c ∈ cleanTitle title) :
    isIdentChar c = true := by
  unfold cleanTitle at h
  have h1 := mem_trimEnds _ _ c h
  rcases mem_collapseRunsAux _ '-' _ false c h1 with h2 | ⟨_, h3⟩
  · subst h2; decide
  · have h4 : isLowerAlnum c = true := by simpa using h3
    simp [isIdentChar, h4]

/-- C6: for every title (including the empty one) and clock value, the
generated identifier is non-empty, decomposes as the fixed namespace prefix
followed by the cleaned, truncated title, a hyphen, and the decimal
timestamp, everything after the prefix is a non-empty string over
`[a-z0-9-]`, and two generations at distinct clock ticks differ. -/
theorem generateIdentifier_spec (title : String) (ts1 ts2 : Nat) :
    generateIdentifier title ts1 ≠ ""
    ∧ generateIdentifier title ts1
        = "notebooklm-archive-"
            ++ String.mk ((cleanTitle title).take 50 ++ '-' :: decDigits ts1)
    ∧ (∀ c ∈ (cleanTitle title).take 50 ++ '-' :: decDigits ts1,
        isIdentChar c = true)
    ∧ ((cleanTitle title).take 50 ++ '-' :: decDigits ts1) ≠ []
    ∧ (ts1 ≠ ts2 →
        generateIdentifier title ts1 ≠ generateIdentifier title ts2) := by
  have hEq : ∀ ts : Nat, generateIdentifier title ts
      = "notebooklm-archive-"
          ++ String.mk ((cleanTitle title).take 50 ++ '-' :: decDigits ts) := by
    intro ts
    apply String.ext
    simp [generateIdentifier, String.data_append, decRepr, List.append_assoc]
  refine ⟨?_, hEq ts1, ?_, ?_, ?_⟩
  · intro h
    rw [hEq ts1] at h
    have h2 := congrArg String.data h
    rw [String.data_append] at h2
    exact absurd (List.append_eq_nil.mp h2).1 (by decide)
  · intro c hc
    rcases List.mem_append.mp hc with h1 | h1
    · exact mem_cleanTitle title c (List.take_subset 50 _ h1)
    · rcases List.mem_cons.mp h1 with h2 | h2
      · subst h2; decide
      · rcases decDigitsAux_mem (ts1 + 1) ts1 c h2 with ⟨d, hd, hcd⟩
        subst hcd
        exact isIdentChar_digitChar d hd
  · intro h
    exact List.cons_ne_nil '-' (decDigits ts1) (List.append_eq_nil.mp h).2
  · intro hne heq
    rw [hEq ts1, hEq ts2] at heq
    have h2 := congrArg String.data heq
    rw [String.data_append, String.data_append] at h2
    have h3 : (cleanTitle title).take 50 ++ '-' :: decDigits ts1
        = (cleanTitle title).take 50 ++ '-' :: decDigits ts2 :=
      List.append_cancel_left h2
    have h4 := List.append_cancel_left h3
    exact hne (decDigits_inj ts1 ts2 (List.cons.inj h4).2)

/-- C6 witness: the same title at two clock ticks yields distinct
identifiers. -/
theorem generateIdentifier_spec_witness :
    generateIdentifier "Hello" 1000 ≠ generateIdentifier "Hello" 1001 :=
  (generateIdentifier_spec "Hello" 1000 1001).2.2.2.2 (by decide)

/-! ## UTF-8 single-byte lemmas and C10 -/

theorem utf8Decode_single_high (b : Nat) (hb : 0x80 ≤ b) :
    utf8Decode [b] = none := by
  have h1 : utf8SeqLen b = 0 ∨ utf8SeqLen b = 2 ∨ utf8SeqLen b = 3
      ∨ utf8SeqLen b = 4 := by
    unfold utf8SeqLen
    split_ifs <;> omega
  unfold utf8Decode
  rcases h1 with h2 | h2 | h2 | h2 <;> rw [h2]

theorem utf8Decode_single_low (b : Nat) (hb : b ≤ 0x7F) :
    utf8Decode [b] = some [b] := by
  have h1 : utf8SeqLen b = 1 := by
    unfold utf8SeqLen
    rw [if_pos hb]
  unfold utf8Decode
  rw [h1]
  rfl

/-- C10: the decode callback turns a percent escape `%XX` into the character
with code `XX` exactly when `XX` is an ASCII byte; any escape whose byte is
`0x80` or above fails to decode (a lone such byte is invalid UTF-8, so
`decodeURIComponent` throws and the `catch` keeps the match verbatim) — in
particular `"%C3%A9"` passes through the whole sanitizer unchanged and is
never turned back into `é`. -/
theorem decodeEscape_ascii_only (h1 h2 : Char)
    (hh1 : isHexDig h1 = true) (hh2 : isHexDig h2 = true) :
    (0x80 ≤ 16 * hexVal h1 + hexVal h2 →
        decodeEscape h1 h2 = ['%', h1, h2])
    ∧ (16 * hexVal h1 + hexVal h2 ≤ 0x7F →
        decodeEscape h1 h2 = [Char.ofNat (16 * hexVal h1 + hexVal h2)])
    ∧ sanitizeHeaderValue "%C3%A9" = "%C3%A9" := by
  refine ⟨?_, ?_, by decide⟩
  · intro hb
    unfold decodeEscape
    rw [utf8Decode_single_high _ hb]
  · intro hb
    unfold decodeEscape
    rw [utf8Decode_single_low _ hb]
    rfl

/-- C10 witness: `%C3` (a UTF-8 lead byte) is preserved verbatim, while
`%41` decodes to `A`. -/
theorem decodeEscape_ascii_only_witness :
    decodeEscape 'C' '3' = ['%', 'C', '3'] ∧ decodeEscape '4' '1' = ['A'] := by
  constructor
  · exact (decodeEscape_ascii_only 'C' '3' (by decide) (by decide)).1 (by decide)
  · exact ((decodeEscape_ascii_only '4' '1' (by decide) (by decide)).2.1
      (by decide)).trans (by decide)

/-- C5: the upload settles with the canonical public URL exactly for a 2xx
status; any other status rejects with a message embedding the decimal status
code and the raw response body, and a transport-level network failure
rejects with the fixed network-error message (no status known). -/
theorem uploadToInternetArchive_outcome_spec (id : String) (status : Nat)
    (body : String) :
    (uploadResult id (.load status body)
        = .ok ("https://archive.org/details/" ++ id)
      ↔ (200 ≤ status ∧ status < 300))
    ∧ (¬(200 ≤ status ∧ status < 300) →
        uploadResult id (.load status body) = .error (mkUploadErrorMsg status body)
        ∧ (decRepr status).data <:+: (mkUploadErrorMsg status body).data
        ∧ body.data <:+: (mkUploadErrorMsg status body).data)
    ∧ uploadResult id .netError = .error "Network error during upload" := by
  refine ⟨?_, ?_, rfl⟩
  · by_cases h : 200 ≤ status ∧ status < 300
    · simp [uploadResult, h]
    · simp [uploadResult, h]
  · intro h
    refine ⟨by simp [uploadResult, h], ?_, ?_⟩
    · refine ⟨"Upload failed with status ".data, (": " ++ body).data, ?_⟩
      simp [mkUploadErrorMsg, String.data_append, List.append_assoc]
    · refine ⟨("Upload failed with status " ++ decRepr status ++ ": ").data, [], ?_⟩
      simp [mkUploadErrorMsg, String.data_append, List.append_assoc]

/-- C5 witness: a 403 response rejects with the status/body message, and a
201 response resolves with the canonical URL. -/
theorem uploadToInternetArchive_outcome_witness :
    uploadResult "abc" (.load 403 "denied")
        = .error (mkUploadErrorMsg 403 "denied")
    ∧ uploadResult "abc" (.load 201 "created")
        = .ok ("https://archive.org/details/" ++ "abc") :=
  ⟨((uploadToInternetArchive_outcome_spec "abc" 403 "denied").2.1 (by omega)).1,
   (uploadToInternetArchive_outcome_spec "abc" 201 "created").1.mpr (by omega)⟩

/-! ## Substring lemmas and C8 -/

theorem occursIn_of_infix (needle : List Char) :
    ∀ hay : List Char, needle <:+: hay → occursIn needle hay = true := by
  intro hay
  induction hay with
  | nil =>
    intro h
    have h1 : needle = [] := List.infix_nil.mp h
    subst h1; rfl
  | cons c t ih =>
    intro h
    rcases List.infix_cons_iff.mp h with h1 | h1
    · unfold occursIn
      simp [List.isPrefixOf_iff_prefix, h1]
    · unfold occursIn
      simp [ih h1]

/-- C8 counterexample: the claimed "if and only if" fails — a status-500
failure whose body merely contains the digits `403` (and no recognized
credential marker) is still classified as a credential failure, because the
classifier substring-searches the combined message. -/
theorem isAuthError_overapprox_counterexample :
    isAuthError (some (mkUploadErrorMsg 500 "x403x")) = true
    ∧ (500 : Nat) ≠ 403
    ∧ strIncludes "x403x" "InvalidAccessKeyId" = false
    ∧ strIncludes "x403x" "SignatureDoesNotMatch" = false := by
  decide

/-- C8 (amended): classification is the substring test for `'403'`,
`'InvalidAccessKeyId'` or `'SignatureDoesNotMatch'` on the combined failure
message — a pure function of the failure's status and body.  A 403 status or
a recognized marker in the body always classifies as a credential failure;
the converse direction of the claim fails because any other occurrence of
`403` in the message (e.g. inside the body) also triggers it. -/
theorem isAuthError_of_status_or_marker (status : Nat) (body : String)
    (h : status = 403 ∨ ("InvalidAccessKeyId" : String).data <:+: body.data
        ∨ ("SignatureDoesNotMatch" : String).data <:+: body.data) :
    isAuthError (some (mkUploadErrorMsg status body)) = true := by
  have hne : mkUploadErrorMsg status body ≠ "" := by
    intro h0
    have h1 := congrArg String.data h0
    simp only [mkUploadErrorMsg, String.data_append] at h1
    exact absurd
      (List.append_eq_nil.mp
        (List.append_eq_nil.mp (List.append_eq_nil.mp h1).1).1).1
      (by decide)
  have hbody : body.data <:+: (mkUploadErrorMsg status body).data := by
    refine ⟨("Upload failed with status " ++ decRepr status ++ ": ").data, [], ?_⟩
    simp [mkUploadErrorMsg, String.data_append, List.append_assoc]
  have hbeq : (mkUploadErrorMsg status body == "") = false := by
    simp [hne]
  rcases h with h1 | h1 | h1
  · subst h1
    have h403 : ("403" : String).data <:+: (mkUploadErrorMsg 403 body).data := by
      refine ⟨"Upload failed with status ".data, (": " ++ body).data, ?_⟩
      have hd : decRepr 403 = "403" := by decide
      simp [mkUploadErrorMsg, String.data_append, List.append_assoc, hd]
    have h2 := occursIn_of_infix _ _ h403
    simp [isAuthError, hbeq, strIncludes, h2]
  · have h2 := occursIn_of_infix _ _ (h1.trans hbody)
    simp [isAuthError, hbeq, strIncludes, h2]
  · have h2 := occursIn_of_infix _ _ (h1.trans hbody)
    simp [isAuthError, hbeq, strIncludes, h2]

/-- C8 witness: a plain 403 rejection is classified as a credential
failure. -/
theorem isAuthError_of_status_or_marker_witness :
    isAuthError (some (mkUploadErrorMsg 403 "Forbidden")) = true :=
  isAuthError_of_status_or_marker 403 "Forbidden" (Or.inl rfl)

/-! ## C7: the derived object name -/

theorem mem_dropExtSeg (s : List Char) (c : Char) (h : c ∈ dropExtSeg s) :
    c ∈ s := by
  unfold dropExtSeg at h
  split_ifs at h
  · exact h
  · exact h
  · rw [List.mem_reverse] at h
    have h2 := List.drop_subset _ _ h
    rwa [List.mem_reverse] at h2

/-- C7 counterexample: the derived object name is not fully underscore-
sanitised — the raw extension is appended verbatim, so a space inside the
extension of `"a.b c"` survives into the derived name. -/
theorem safeFilename_space_in_ext_counterexample :
    safeFilename "a.b c" = "a.b c"
    ∧ ' ' ∈ (safeFilename "a.b c").data
    ∧ allowedFileChar ' ' = false := by
  decide

/-- C7 (amended): the derived name is the sanitised filename (every
character outside `[a-zA-Z0-9.-]` replaced by `_`) with its final
extension-like segment stripped, followed by a dot and the raw original
extension — the last dot-segment of the unsanitised name (the whole name if
it has no dot, `"mp3"` if that is empty) — appended verbatim, preserving it
even when it contains disallowed characters. -/
theorem safeFilename_spec (name : String) :
    safeFilename name
      = String.mk (dropExtSeg (sanitizeFileChars name.data)) ++ "." ++ extOf name
    ∧ (∀ c ∈ dropExtSeg (sanitizeFileChars name.data),
        allowedFileChar c = true ∨ c = '_')
    ∧ ((splitOnDot name.data).getLastD [] ≠ [] →
        extOf name = String.mk ((splitOnDot name.data).getLastD [])) := by
  refine ⟨rfl, ?_, ?_⟩
  · intro c hc
    have h1 := mem_dropExtSeg _ c hc
    unfold sanitizeFileChars at h1
    rcases List.mem_map.mp h1 with ⟨a, _, ha⟩
    by_cases h2 : allowedFileChar a = true
    · rw [if_pos h2] at ha
      subst ha
      exact Or.inl h2
    · rw [if_neg h2] at ha
      exact Or.inr ha.symm
  · intro h
    unfold extOf
    rw [if_neg]
    intro hE
    exact h (List.isEmpty_iff.mp hE)

/-- C7 witness: for a dotted name the appended extension is the original
last dot-segment. -/
theorem safeFilename_spec_witness :
    extOf "a.tar.gz" = String.mk ((splitOnDot "a.tar.gz".data).getLastD []) :=
  (safeFilename_spec "a.tar.gz").2.2 (by decide)
